import Mathlib

/-
  Verification development for the `chatroom` repository (Go):
  a single-process TCP chat room with one broadcaster goroutine (the Hub),
  one `handleConn` goroutine per accepted connection (Connection Worker)
  and one `sendMessage` goroutine per user (Mailbox Writer).

  The embedding below translates `server.go` (src/unnamed/part_000):
  - the four wire-format strings built in `handleConn`,
  - `genUserID` (mutex-guarded counter),
  - the accept loop of `main`,
  - the `bufio.Scanner` read loop of `handleConn`,
  - an operational small-step model of the broadcaster `select` loop,
    the per-connection workers and the per-user mailbox channels,
    with Go channel semantics made explicit: `messageChannel` is a
    FIFO buffer of capacity 8, `enteringChannel`/`leavingChannel` are
    unbuffered rendezvous channels, sending on a closed channel and
    closing a closed channel are runtime panics that crash the process,
    and `select` may take any ready case.
-/

namespace Chatroom

/-! ## Wire-format strings (handleConn) -/

/-- Welcome line `handleConn` enqueues directly into the new user's own
`MessageChannel`: `"欢迎你的到来：" + strconv.Itoa(user.ID)`. -/
def welcomeMsg (id : Nat) : String := "欢迎你的到来：" ++ toString id

/-- Arrival announcement sent to the global `messageChannel`:
`"user:` + backquote + `" + strconv.Itoa(user.ID) + "` has enter"`. -/
def enterMsg (id : Nat) : String := "user:`" ++ toString id ++ "` has enter"

/-- Relay of one inbound chat line: `strconv.Itoa(user.ID) + ": " + input.Text()`. -/
def chatMsg (id : Nat) (text : String) : String := toString id ++ ": " ++ text

/-- Departure announcement: `"user:` + backquote + `" + strconv.Itoa(user.ID) + "` has left"`. -/
def leftMsg (id : Nat) : String := "user:`" ++ toString id ++ "` has left"

/-! ## Identity Generator (genUserID) -/

/-- Two's-complement wrap of an integer into the range of a Go `int` on a
64-bit platform: the result lies in `[-2^63, 2^63)` and agrees with the
argument modulo `2^64`.  Go integer addition overflows silently with
exactly this wrapping behavior. -/
def wrapInt64 (z : Int) : Int := (z + 2 ^ 63) % 2 ^ 64 - 2 ^ 63

/-- One call of `genUserID`: under `idCounter.Lock()` it performs `nextId++`
and returns the new value of `nextId`.  The mutex makes the increment atomic,
so concurrent calls serialize; the state is the current value of the global
`nextId` counter (initially 0).  `nextId` is a Go `int` — a wrapping 64-bit
machine integer — so the increment is a wrapping one.  Returns
(new counter value, returned id). -/
def genUserID (nextId : Int) : Int × Int :=
  (wrapInt64 (nextId + 1), wrapInt64 (nextId + 1))

/-- The ids returned by `n` successive (serialized) calls of `genUserID`
starting from counter value `c`. -/
def genSeq : Int → Nat → List Int
  | _, 0 => []
  | c, n + 1 => (genUserID c).2 :: genSeq (genUserID c).1 n

/-! ## Accept loop (main) -/

/-- Result of one `listener.Accept()` call: a connection (abstracted to a
numeric handle) or an error. -/
inductive AcceptRes where
  | conn (c : Nat)
  | err (e : String)
deriving DecidableEq, Repr

/-- The accept loop of `main`, run on the stream of `Accept` results it
would observe.  On a successful accept it spawns `handleConn` and loops; on
an error it runs `log.Panicln(err)`, which logs and then panics — the panic
is never recovered, so it terminates the whole process, and the `continue`
after it never executes.  Returns the connections actually handed to
`handleConn` and `some e` when the process died with panic message `e`
(`none`: the loop consumed the whole list and is still running). -/
def acceptLoop : List AcceptRes → List Nat × Option String
  | [] => ([], none)
  | AcceptRes.conn c :: rest =>
      let r := acceptLoop rest
      (c :: r.1, r.2)
  | AcceptRes.err e :: _ => ([], some e)

/-! ## Connection Worker (handleConn) -/

/-- Byte length of the UTF-8 encoding of a string, as Go's `len` and
`bufio` count it. -/
def byteLen (s : String) : Nat := (s.data.map Char.utf8Size).sum

/-- Maximum token size of a `bufio.Scanner` that was not given a custom
buffer: `bufio.MaxScanTokenSize = 64 * 1024`. -/
def maxScanTokenSize : Nat := 65536

/-- The `for input.Scan()` loop of `handleConn` over the complete lines
available on the connection, with `bufio.ScanLines` splitting and the default
buffer.  A line whose byte length reaches `maxScanTokenSize` cannot fit
together with its terminator in the scanner's maximal buffer, so `Scan`
returns `false` with `bufio.ErrTooLong`; shorter lines are delivered.
Returns (lines delivered to the loop body, whether the loop stopped with
`ErrTooLong`). -/
def scanLines : List String → List String × Bool
  | [] => ([], false)
  | l :: ls =>
      if byteLen l < maxScanTokenSize then
        let r := scanLines ls
        (l :: r.1, r.2)
      else ([], true)

/-- How the connection's byte stream ended after its complete lines:
clean end-of-stream, or a transport read error. -/
inductive Term where
  | eof
  | readErr (e : String)
deriving DecidableEq, Repr

/-- One step a Connection Worker performs, in program order of `handleConn`:
`direct m` sends `m` into its own user's `MessageChannel` (the welcome,
the single direct write); `bcast m` sends `m` into the global buffered
`messageChannel`; `join` sends the user on the unbuffered `enteringChannel`;
`leave` sends the user on the unbuffered `leavingChannel`. -/
inductive WEv where
  | direct (m : String)
  | bcast (m : String)
  | join
  | leave
deriving DecidableEq, Repr

/-- The channel operations `handleConn` performs for user `id` when the read
loop delivers exactly the lines `delivered`, in program order: welcome into
its own mailbox, arrival announcement to `messageChannel`, registration on
`enteringChannel`, one relayed broadcast per delivered line, then departure
on `leavingChannel` followed by the departure announcement. -/
def prog (id : Nat) (delivered : List String) : List WEv :=
  WEv.direct (welcomeMsg id) :: WEv.bcast (enterMsg id) :: WEv.join ::
    (delivered.map (fun l => WEv.bcast (chatMsg id l)) ++
      [WEv.leave, WEv.bcast (leftMsg id)])

/-- Observable outcome of one `handleConn` invocation. -/
structure ConnResult where
  /-- Channel operations in the order the worker performs them. -/
  events : List WEv
  /-- Lines written to the local log (`log.Println("读取错误：", err)`). -/
  logged : List String
  /-- Whether the deferred `conn.Close()` ran. -/
  connClosed : Bool
deriving DecidableEq, Repr

/-- The whole of `handleConn` for user `id`, given the complete lines
`inbound` available on the connection and the way `t` the stream ended after
them.  The scanner may stop early with `ErrTooLong` on an over-long line; a
non-nil `input.Err()` (too-long line or transport error) is logged locally;
either way the worker then submits Leave and the departure broadcast, and
the deferred `conn.Close()` runs on every path. -/
def handleConn (id : Nat) (inbound : List String) (t : Term) : ConnResult :=
  let s := scanLines inbound
  let errMsg : Option String :=
    if s.2 then some ("bufio.Scanner: token too long")
    else
      match t with
      | Term.eof => none
      | Term.readErr e => some e
  { events := prog id s.1
    logged :=
      match errMsg with
      | some e => ["读取错误：" ++ e]
      | none => []
    connClosed := true }

/-! ## Hub (broadcaster) -/

/-- Capacity of the buffered channels: `make(chan string, 8)` for both the
global `messageChannel` and every user's `MessageChannel`. -/
def chanCap : Nat := 8

/-- A user's `MessageChannel` (`make(chan string, 8)`).  `history` is every
string ever sent into it, in send order; `drained` counts how many of them
the user's `sendMessage` goroutine has received so far (each received message
is written to the connection by `fmt.Fprintln`, so `history.take drained` is
the sequence of lines on the wire); `closed` records whether the broadcaster
has closed the channel.  The messages still buffered are
`history.drop drained`, and a sender blocks when `chanCap` of them are
pending. -/
structure Mailbox where
  history : List String
  drained : Nat
  closed : Bool
deriving DecidableEq, Repr

/-- Number of messages sent into the channel but not yet received by its
`sendMessage` goroutine. -/
def Mailbox.pending (b : Mailbox) : Nat := b.history.length - b.drained

/-- One event as the broadcaster receives it from one of its three
channels. -/
inductive HEvent where
  | enter (uid : Nat)
  | leave (uid : Nat)
  | message (m : String)
deriving DecidableEq, Repr

/-- State owned by the broadcaster goroutine: the roster
(`users := make(map[*User]struct{})`, keyed by user — ids are unique by
`genUserID`, so we key by id) together with every user's mailbox channel.
Mailboxes of users that were never created are represented as open and
empty; no transition ever touches them. -/
structure HubSt where
  roster : List Nat
  boxes : Nat → Mailbox

/-- One iteration of the broadcaster's `select` loop, applied to the event
it received.  `none` models a runtime panic, which crashes the whole
process, since nothing recovers: `close` of an already-closed channel (the
leave case) or a send on a closed channel (the message fan-out).  Entering
inserts into the map (re-inserting a present key changes nothing); leaving
deletes the user from the map — a no-op when absent — and then closes the
user's channel unconditionally; a message is sent into the channel of every
user currently in the map.  Blocking on a full mailbox is modelled at the
system level (`step`), where the scheduler lives; here the fan-out is the
state change after all sends completed. -/
def hubHandle (st : HubSt) : HEvent → Option HubSt
  | HEvent.enter u =>
      some { st with roster := if u ∈ st.roster then st.roster else st.roster ++ [u] }
  | HEvent.leave u =>
      if (st.boxes u).closed then none
      else
        some { roster := st.roster.erase u
               boxes := fun v =>
                 if v = u then { st.boxes u with closed := true } else st.boxes v }
  | HEvent.message m =>
      if st.roster.any (fun u => (st.boxes u).closed) then none
      else
        some { st with
          boxes := fun v =>
            if v ∈ st.roster then
              { st.boxes v with history := (st.boxes v).history ++ [m] }
            else st.boxes v }

/-! ## Whole-system small-step model -/

/-- A Connection Worker: its user's id and the channel operations it still
has to perform (a suffix of `prog uid delivered`). -/
structure Worker where
  uid : Nat
  todo : List WEv

/-- Whole-system state: the per-connection workers, the buffered global
`messageChannel` (FIFO, capacity 8), the broadcaster's state, plus two
observation logs — `hubLog`, the events in the order the broadcaster
received them, and `submitted`, every string ever sent into
`messageChannel` in send order — and whether the process has crashed with a
panic. -/
structure Sys where
  workers : List Worker
  msgQ : List String
  hub : HubSt
  hubLog : List HEvent
  submitted : List String
  crashed : Bool

/-- A scheduling choice: run worker `i`'s next buffered-channel operation;
let the broadcaster's `select` take worker `i`'s pending rendezvous on
`enteringChannel` / `leavingChannel`; let it take the head of
`messageChannel`; or let user `u`'s `sendMessage` goroutine receive its next
message.  Go's `select` picks among ready cases with no fixed priority, and
goroutines interleave arbitrarily, so any sequence of choices in which each
step is enabled is a possible execution. -/
inductive Act where
  | work (i : Nat)
  | hubJoin (i : Nat)
  | hubLeave (i : Nat)
  | hubMsg
  | drain (u : Nat)
deriving DecidableEq, Repr

/-- One enabled transition, or `none` when the chosen step is disabled
(blocked, or nothing to do, or the process already crashed).  A transition
into a state with `crashed := true` is a runtime panic: the send on a
closed channel (worker's direct welcome send) or the panics of
`hubHandle`. -/
def step (s : Sys) : Act → Option Sys
  | Act.work i =>
      if s.crashed then none
      else
        match s.workers.get? i with
        | none => none
        | some w =>
          match w.todo with
          | WEv.direct m :: rest =>
              if (s.hub.boxes w.uid).closed then some { s with crashed := true }
              else if (s.hub.boxes w.uid).pending < chanCap then
                some { s with
                  workers := s.workers.set i { w with todo := rest }
                  hub := { s.hub with
                    boxes := fun v =>
                      if v = w.uid then
                        { s.hub.boxes v with history := (s.hub.boxes v).history ++ [m] }
                      else s.hub.boxes v } }
              else none
          | WEv.bcast m :: rest =>
              if s.msgQ.length < chanCap then
                some { s with
                  workers := s.workers.set i { w with todo := rest }
                  msgQ := s.msgQ ++ [m]
                  submitted := s.submitted ++ [m] }
              else none
          | _ => none
  | Act.hubJoin i =>
      if s.crashed then none
      else
        match s.workers.get? i with
        | none => none
        | some w =>
          match w.todo with
          | WEv.join :: rest =>
              match hubHandle s.hub (HEvent.enter w.uid) with
              | none => some { s with crashed := true }
              | some h =>
                  some { s with
                    workers := s.workers.set i { w with todo := rest }
                    hub := h
                    hubLog := s.hubLog ++ [HEvent.enter w.uid] }
          | _ => none
  | Act.hubLeave i =>
      if s.crashed then none
      else
        match s.workers.get? i with
        | none => none
        | some w =>
          match w.todo with
          | WEv.leave :: rest =>
              match hubHandle s.hub (HEvent.leave w.uid) with
              | none => some { s with crashed := true }
              | some h =>
                  some { s with
                    workers := s.workers.set i { w with todo := rest }
                    hub := h
                    hubLog := s.hubLog ++ [HEvent.leave w.uid] }
          | _ => none
  | Act.hubMsg =>
      if s.crashed then none
      else
        match s.msgQ with
        | [] => none
        | m :: rest =>
            if s.hub.roster.all (fun u => (s.hub.boxes u).pending < chanCap) then
              match hubHandle s.hub (HEvent.message m) with
              | none => some { s with crashed := true }
              | some h =>
                  some { s with
                    msgQ := rest
                    hub := h
                    hubLog := s.hubLog ++ [HEvent.message m] }
            else none
  | Act.drain u =>
      if s.crashed then none
      else
        if (s.hub.boxes u).drained < (s.hub.boxes u).history.length then
          some { s with
            hub := { s.hub with
              boxes := fun v =>
                if v = u then { s.hub.boxes u with drained := (s.hub.boxes u).drained + 1 }
                else s.hub.boxes v } }
        else none

/-- Run a list of scheduling choices; a disabled choice leaves the state
unchanged. -/
def runSteps (s : Sys) : List Act → Sys
  | [] => s
  | a :: as => runSteps ((step s a).getD s) as

/-- The broadcast message carried by a hub event, if any. -/
def msgOf : HEvent → Option String
  | HEvent.message m => some m
  | _ => none

/-- Broadcast messages in the order the broadcaster processed them. -/
def hubMsgSeq (s : Sys) : List String := s.hubLog.filterMap msgOf

/-- FIFO bookkeeping of `messageChannel`: what the broadcaster has processed
followed by what is still buffered is exactly everything ever submitted, in
submission order.  Holds in any initial state (all three lists empty) and is
preserved by every step. -/
def fifoInv (s : Sys) : Prop := hubMsgSeq s ++ s.msgQ = s.submitted

/-! ## Concrete states and schedules -/

/-- A freshly created `MessageChannel`: `make(chan string, 8)`. -/
def box0 : Mailbox := { history := [], drained := 0, closed := false }

/-- The system right after one connection was accepted: one Connection
Worker for user 1 with its whole `handleConn` program still to run (its
peer sends no chat lines), an empty roster and an idle broadcaster. -/
def sysRace : Sys :=
  { workers := [{ uid := 1, todo := prog 1 [] }]
    msgQ := []
    hub := { roster := [], boxes := fun _ => box0 }
    hubLog := []
    submitted := []
    crashed := false }

/-- A legal schedule from `sysRace`: the worker sends the welcome into its
own mailbox; it sends the arrival announcement into the buffered
`messageChannel` (the send completes against the buffer); it then blocks
sending itself on the unbuffered `enteringChannel`; the broadcaster's
`select` now has two ready cases — the buffered arrival announcement and
the pending registration — and Go's `select` picks among ready cases
uniformly at random, so it may take `enteringChannel` first; it then takes
the arrival announcement and fans it out to the roster, which already
contains the arriving user. -/
def raceActs : List Act := [Act.work 0, Act.work 0, Act.hubJoin 0, Act.hubMsg]

/-- Broadcaster state with users 1 and 2 registered and both their
mailboxes open: the state from which a first `Leave(1)` is processed. -/
def hubSt3 : HubSt := { roster := [1, 2], boxes := fun _ => box0 }

/-- Broadcaster state with three users registered, all mailboxes open. -/
def stABC : HubSt := { roster := [1, 2, 3], boxes := fun _ => box0 }

/-- The spec's end-to-end scenario: user 1 connects and will send one chat
line `hello`, user 2 connects and sends nothing. -/
def sysScen : Sys :=
  { workers := [{ uid := 1, todo := prog 1 ["hello"] }, { uid := 2, todo := prog 2 [] }]
    msgQ := []
    hub := { roster := [], boxes := fun _ => box0 }
    hubLog := []
    submitted := []
    crashed := false }

/-- A schedule for `sysScen` in which the broadcaster always drains
`messageChannel` before accepting a registration: user 1 joins, user 2
joins, user 1 sends `hello`, user 1 disconnects. -/
def scenActs : List Act :=
  [Act.work 0, Act.work 0, Act.hubMsg, Act.hubJoin 0,
   Act.work 1, Act.work 1, Act.hubMsg, Act.hubJoin 1,
   Act.work 0, Act.hubMsg,
   Act.hubLeave 0, Act.work 0, Act.hubMsg]

/-- An inbound line of 65537 bytes (65537 ASCII characters). -/
def bigLine : String := String.mk (List.replicate 65537 'a')

/-- A system in which user 1 is registered, its Mailbox Writer has drained
the welcome line, and its worker's connection has just terminated: the
worker is blocked sending itself on `leavingChannel`. -/
def sysLeaveW : Sys :=
  { workers := [{ uid := 1, todo := [WEv.leave, WEv.bcast (leftMsg 1)] }]
    msgQ := []
    hub :=
      { roster := [1]
        boxes := fun v =>
          if v = 1 then { history := [welcomeMsg 1], drained := 1, closed := false }
          else box0 }
    hubLog := [HEvent.message (enterMsg 1), HEvent.enter 1]
    submitted := [enterMsg 1]
    crashed := false }

/-- The state after the broadcaster processes the pending Leave of
`sysLeaveW`. -/
def sysLeaveW' : Sys := (step sysLeaveW (Act.hubLeave 0)).getD sysLeaveW

/-- The scenario system after worker 1's first two sends: the welcome is in
its own mailbox and the arrival announcement sits in `messageChannel`. -/
def sysMid : Sys := runSteps sysScen [Act.work 0, Act.work 0]

/-- A system in which user 1's mailbox has been closed with two messages
still buffered: its Mailbox Writer has two lines left to write. -/
def sysDrainW : Sys :=
  { workers := []
    msgQ := []
    hub :=
      { roster := []
        boxes := fun v =>
          if v = 1 then { history := ["a", "b"], drained := 0, closed := true }
          else box0 }
    hubLog := []
    submitted := []
    crashed := false }

/-! ## Helper lemmas -/

/-- The worker's operation list always ends with the Leave submission
followed by the departure announcement. -/
theorem prog_split (id : Nat) (d : List String) :
    prog id d =
      (WEv.direct (welcomeMsg id) :: WEv.bcast (enterMsg id) :: WEv.join ::
        d.map (fun l => WEv.bcast (chatMsg id l))) ++ [WEv.leave, WEv.bcast (leftMsg id)] := by
  simp [prog]

/-- Wrapping is the identity on values already inside the `int64` range. -/
theorem wrapInt64_eq_self (z : Int) (h1 : -(2 ^ 63) ≤ z) (h2 : z < 2 ^ 63) :
    wrapInt64 z = z := by
  unfold wrapInt64
  rw [Int.emod_eq_of_lt (by omega) (by omega)]
  omega

/-- As long as the counter stays below the `int64` maximum, no increment
wraps, and `n` calls from counter `c` return exactly `c+1, …, c+n`. -/
theorem genSeq_eq_of_le : ∀ (n : Nat) (c : Int), 0 ≤ c → c + n ≤ 2 ^ 63 - 1 →
    genSeq c n = (List.range n).map (fun (k : Nat) => c + 1 + (k : Int)) := by
  intro n
  induction n with
  | zero => intro c _ _; rfl
  | succ m ih =>
      intro c hc hn
      push_cast at hn
      have hwrap : wrapInt64 (c + 1) = c + 1 :=
        wrapInt64_eq_self (c + 1) (by omega) (by omega)
      show wrapInt64 (c + 1) :: genSeq (wrapInt64 (c + 1)) m = _
      rw [hwrap, ih (c + 1) (by omega) (by push_cast; omega), List.range_succ_eq_map]
      simp only [List.map_cons, List.map_map, Function.comp, List.cons.injEq]
      refine ⟨by push_cast; ring, ?_⟩
      congr 1
      funext k
      simp only [Function.comp_apply]
      push_cast
      ring

theorem byteLen_mk_replicate (n : Nat) (c : Char) :
    byteLen (String.mk (List.replicate n c)) = n * c.utf8Size := by
  show ((List.replicate n c).map Char.utf8Size).sum = n * c.utf8Size
  simp [List.sum_replicate, smul_eq_mul]

/-- When all of `pre` fits in the scanner's buffer and `l` does not, the
read loop delivers exactly `pre` and stops with `ErrTooLong`. -/
theorem scanLines_stops (l : String) (hl : maxScanTokenSize ≤ byteLen l) :
    ∀ pre post, (∀ x ∈ pre, byteLen x < maxScanTokenSize) →
      scanLines (pre ++ l :: post) = (pre, true) := by
  intro pre
  induction pre with
  | nil => intro post _; simp [scanLines, Nat.not_lt.mpr hl]
  | cons x xs ih =>
      intro post h
      simp [scanLines, h x (by simp), ih post (fun y hy => h y (by simp [hy]))]

/-! ## Step/run invariants of the system model -/

/-- Inversion: a step either leaves a mailbox's closed flag unchanged, or it
is the broadcaster processing that user's Leave. -/
theorem step_closed_cases (s : Sys) (a : Act) (s' : Sys) (h : step s a = some s') (u : Nat) :
    (s'.hub.boxes u).closed = (s.hub.boxes u).closed
    ∨ ∃ i w, a = Act.hubLeave i ∧ s.workers.get? i = some w ∧ w.uid = u := by
  cases a with
  | work i =>
      simp only [step] at h
      split at h
      · exact absurd h (by simp)
      · split at h
        · exact absurd h (by simp)
        · split at h
          · split at h
            · injection h with h; subst h; exact Or.inl rfl
            · split at h
              · injection h with h; subst h
                exact Or.inl (by dsimp; split <;> rfl)
              · exact absurd h (by simp)
          · split at h
            · injection h with h; subst h; exact Or.inl rfl
            · exact absurd h (by simp)
          · exact absurd h (by simp)
  | hubJoin i =>
      simp only [step] at h
      split at h
      · exact absurd h (by simp)
      · split at h
        · exact absurd h (by simp)
        · split at h
          · rename_i heq
            split at h
            · injection h with h; subst h; exact Or.inl rfl
            · rename_i hh heq2
              simp only [hubHandle, Option.some.injEq] at heq2
              injection h with h; subst h
              subst heq2
              exact Or.inl rfl
          · exact absurd h (by simp)
  | hubLeave i =>
      simp only [step] at h
      split at h
      · exact absurd h (by simp)
      · split at h
        · exact absurd h (by simp)
        · rename_i w heqw
          split at h
          · rename_i rest heqt
            split at h
            · injection h with h; subst h; exact Or.inl rfl
            · rename_i hh heq2
              simp only [hubHandle] at heq2
              split at heq2
              · exact absurd heq2 (by simp)
              · simp only [Option.some.injEq] at heq2
                injection h with h; subst h
                subst heq2
                by_cases hu : u = w.uid
                · exact Or.inr ⟨i, w, rfl, heqw, hu.symm⟩
                · refine Or.inl ?_
                  dsimp
                  rw [if_neg hu]
          · exact absurd h (by simp)
  | hubMsg =>
      simp only [step] at h
      split at h
      · exact absurd h (by simp)
      · split at h
        · exact absurd h (by simp)
        · split at h
          · split at h
            · injection h with h; subst h; exact Or.inl rfl
            · rename_i hh heq2
              simp only [hubHandle] at heq2
              split at heq2
              · exact absurd heq2 (by simp)
              · simp only [Option.some.injEq] at heq2
                injection h with h; subst h
                subst heq2
                exact Or.inl (by dsimp; split <;> rfl)
          · exact absurd h (by simp)
  | drain v =>
      simp only [step] at h
      split at h
      · exact absurd h (by simp)
      · split at h
        · injection h with h; subst h
          refine Or.inl ?_
          dsimp
          split
          · rename_i hv; subst hv; rfl
          · rfl
        · exact absurd h (by simp)

/-- Mailbox histories only ever grow: every step appends to a mailbox or
leaves it alone. -/
theorem step_history_mono (s : Sys) (a : Act) (s' : Sys) (h : step s a = some s') (u : Nat) :
    List.IsPrefix ((s.hub.boxes u).history) ((s'.hub.boxes u).history) := by
  cases a with
  | work i =>
      simp only [step] at h
      split at h
      · exact absurd h (by simp)
      · split at h
        · exact absurd h (by simp)
        · split at h
          · split at h
            · injection h with h; subst h; exact List.prefix_refl _
            · split at h
              · injection h with h; subst h
                dsimp
                split
                · exact List.prefix_append _ _
                · exact List.prefix_refl _
              · exact absurd h (by simp)
          · split at h
            · injection h with h; subst h; exact List.prefix_refl _
            · exact absurd h (by simp)
          · exact absurd h (by simp)
  | hubJoin i =>
      simp only [step] at h
      split at h
      · exact absurd h (by simp)
      · split at h
        · exact absurd h (by simp)
        · split at h
          · split at h
            · injection h with h; subst h; exact List.prefix_refl _
            · rename_i hh heq2
              simp only [hubHandle, Option.some.injEq] at heq2
              injection h with h; subst h
              subst heq2
              exact List.prefix_refl _
          · exact absurd h (by simp)
  | hubLeave i =>
      simp only [step] at h
      split at h
      · exact absurd h (by simp)
      · split at h
        · exact absurd h (by simp)
        · rename_i w heqw
          split at h
          · split at h
            · injection h with h; subst h; exact List.prefix_refl _
            · rename_i hh heq2
              simp only [hubHandle] at heq2
              split at heq2
              · exact absurd heq2 (by simp)
              · simp only [Option.some.injEq] at heq2
                injection h with h; subst h
                subst heq2
                dsimp
                split
                · rename_i hv; subst hv; exact List.prefix_refl _
                · exact List.prefix_refl _
          · exact absurd h (by simp)
  | hubMsg =>
      simp only [step] at h
      split at h
      · exact absurd h (by simp)
      · split at h
        · exact absurd h (by simp)
        · split at h
          · split at h
            · injection h with h; subst h; exact List.prefix_refl _
            · rename_i hh heq2
              simp only [hubHandle] at heq2
              split at heq2
              · exact absurd heq2 (by simp)
              · simp only [Option.some.injEq] at heq2
                injection h with h; subst h
                subst heq2
                dsimp
                split
                · exact List.prefix_append _ _
                · exact List.prefix_refl _
          · exact absurd h (by simp)
  | drain v =>
      simp only [step] at h
      split at h
      · exact absurd h (by simp)
      · split at h
        · injection h with h; subst h
          dsimp
          split
          · rename_i hv; subst hv; exact List.prefix_refl _
          · exact List.prefix_refl _
        · exact absurd h (by simp)

/-- Every step preserves the FIFO bookkeeping of `messageChannel`. -/
theorem step_fifo (s : Sys) (a : Act) (s' : Sys) (h : step s a = some s')
    (hinv : fifoInv s) : fifoInv s' := by
  cases a with
  | work i =>
      simp only [step] at h
      split at h
      · exact absurd h (by simp)
      · split at h
        · exact absurd h (by simp)
        · split at h
          · split at h
            · injection h with h; subst h; exact hinv
            · split at h
              · injection h with h; subst h; exact hinv
              · exact absurd h (by simp)
          · split at h
            · injection h with h; subst h
              show hubMsgSeq s ++ (s.msgQ ++ [_]) = s.submitted ++ [_]
              rw [← List.append_assoc, hinv]
            · exact absurd h (by simp)
          · exact absurd h (by simp)
  | hubJoin i =>
      simp only [step] at h
      split at h
      · exact absurd h (by simp)
      · split at h
        · exact absurd h (by simp)
        · split at h
          · split at h
            · injection h with h; subst h; exact hinv
            · rename_i hh heq2
              injection h with h; subst h
              show List.filterMap msgOf (s.hubLog ++ [HEvent.enter _]) ++ s.msgQ = s.submitted
              rw [List.filterMap_append]
              simpa [msgOf] using hinv
          · exact absurd h (by simp)
  | hubLeave i =>
      simp only [step] at h
      split at h
      · exact absurd h (by simp)
      · split at h
        · exact absurd h (by simp)
        · split at h
          · split at h
            · injection h with h; subst h; exact hinv
            · rename_i hh heq2
              injection h with h; subst h
              show List.filterMap msgOf (s.hubLog ++ [HEvent.leave _]) ++ s.msgQ = s.submitted
              rw [List.filterMap_append]
              simpa [msgOf] using hinv
          · exact absurd h (by simp)
  | hubMsg =>
      simp only [step] at h
      split at h
      · exact absurd h (by simp)
      · split at h
        · exact absurd h (by simp)
        · rename_i m rest heqQ
          split at h
          · split at h
            · injection h with h; subst h; exact hinv
            · rename_i hh heq2
              injection h with h; subst h
              show List.filterMap msgOf (s.hubLog ++ [HEvent.message m]) ++ rest = s.submitted
              have hinv' : List.filterMap msgOf s.hubLog ++ s.msgQ = s.submitted := hinv
              rw [heqQ] at hinv'
              rw [List.filterMap_append]
              simpa [msgOf, List.append_assoc] using hinv'
          · exact absurd h (by simp)
  | drain v =>
      simp only [step] at h
      split at h
      · exact absurd h (by simp)
      · split at h
        · injection h with h; subst h; exact hinv
        · exact absurd h (by simp)

/-- The FIFO bookkeeping is an invariant of whole executions. -/
theorem runSteps_fifo (s : Sys) (tr : List Act) (hinv : fifoInv s) :
    fifoInv (runSteps s tr) := by
  induction tr generalizing s with
  | nil => exact hinv
  | cons a as ih =>
      simp only [runSteps]
      cases hst : step s a with
      | none => simpa [hst] using ih s hinv
      | some s' => simpa [hst] using ih s' (step_fifo s a s' hst hinv)

/-- Across any execution, a mailbox's history extends its old history. -/
theorem runSteps_history_mono (s : Sys) (tr : List Act) (u : Nat) :
    List.IsPrefix ((s.hub.boxes u).history) (((runSteps s tr).hub.boxes u).history) := by
  induction tr generalizing s with
  | nil => exact List.prefix_refl _
  | cons a as ih =>
      simp only [runSteps]
      cases hst : step s a with
      | none => simpa [hst] using ih s
      | some s' =>
          have h1 := step_history_mono s a s' hst u
          have h2 := ih s'
          simpa [hst] using h1.trans (by simpa [hst] using ih s')

/-- Whenever a worker is blocked sending its Leave on `leavingChannel` and
its mailbox is open, the broadcaster can take it, and doing so closes the
mailbox without crashing. -/
theorem hubLeave_enabled (s : Sys) (i : Nat) (w : Worker) (rest : List WEv)
    (hc : s.crashed = false) (hw : s.workers.get? i = some w)
    (ht : w.todo = WEv.leave :: rest) (hb : (s.hub.boxes w.uid).closed = false) :
    ∃ s', step s (Act.hubLeave i) = some s'
      ∧ (s'.hub.boxes w.uid).closed = true
      ∧ s'.crashed = false := by
  refine ⟨{ s with
      workers := s.workers.set i { w with todo := rest }
      hub :=
        { roster := s.hub.roster.erase w.uid
          boxes := (fun v =>
            if v = w.uid then { s.hub.boxes w.uid with closed := true }
            else s.hub.boxes v) }
      hubLog := s.hubLog ++ [HEvent.leave w.uid] }, ?_, by simp, hc⟩
  simp only [step, hc, Bool.false_eq_true, if_false, hw, ht, hubHandle, hb]
  try simp

/-- Once a mailbox is closed with `n` messages still buffered, its
`sendMessage` goroutine drains them in exactly `n` receives — writing each
as a line — and then its `for msg := range ch` loop terminates. -/
theorem drain_runs_out (u : Nat) :
    ∀ n (s : Sys), s.crashed = false → (s.hub.boxes u).closed = true →
      (s.hub.boxes u).drained + n = (s.hub.boxes u).history.length →
      ((runSteps s (List.replicate n (Act.drain u))).hub.boxes u).closed = true
      ∧ ((runSteps s (List.replicate n (Act.drain u))).hub.boxes u).history
          = (s.hub.boxes u).history
      ∧ ((runSteps s (List.replicate n (Act.drain u))).hub.boxes u).drained
          = (s.hub.boxes u).history.length := by
  intro n
  induction n with
  | zero =>
      intro s hc hcl hd
      refine ⟨hcl, rfl, ?_⟩
      show (s.hub.boxes u).drained = (s.hub.boxes u).history.length
      omega
  | succ k ih =>
      intro s hc hcl hd
      have hlt : (s.hub.boxes u).drained < (s.hub.boxes u).history.length := by omega
      have hstep : step s (Act.drain u) = some { s with
          hub := { s.hub with
            boxes := (fun v =>
              if v = u then { s.hub.boxes u with drained := (s.hub.boxes u).drained + 1 }
              else s.hub.boxes v) } } := by
        simp only [step, hc, Bool.false_eq_true, if_false, hlt, if_true]
        try simp
      have hrw : List.replicate (k + 1) (Act.drain u) = Act.drain u :: List.replicate k (Act.drain u) := rfl
      rw [hrw]
      simp only [runSteps, hstep, Option.getD_some]
      have := ih ({ s with
          hub := { s.hub with
            boxes := (fun v =>
              if v = u then { s.hub.boxes u with drained := (s.hub.boxes u).drained + 1 }
              else s.hub.boxes v) } }) hc (by simp [hcl]) (by simp; omega)
      simpa using this

/-- Processing the head of `messageChannel` either panics on a closed
rostered mailbox or appends exactly that oldest message to every rostered
mailbox, logging it as processed. -/
theorem hubMsg_fanout (s : Sys) (m : String) (rest : List String) (s' : Sys)
    (hq : s.msgQ = m :: rest) (h : step s Act.hubMsg = some s') :
    s'.crashed = true
    ∨ (s'.hubLog = s.hubLog ++ [HEvent.message m] ∧ s'.msgQ = rest
       ∧ ∀ u ∈ s.hub.roster, (s'.hub.boxes u).history = (s.hub.boxes u).history ++ [m]) := by
  simp only [step, hq] at h
  split at h
  · exact absurd h (by simp)
  · split at h
    · rename_i hall
      split at h
      · injection h with h; subst h; exact Or.inl rfl
      · rename_i hh heq2
        simp only [hubHandle] at heq2
        split at heq2
        · exact absurd heq2 (by simp)
        · simp only [Option.some.injEq] at heq2
          injection h with h; subst h
          subst heq2
          refine Or.inr ⟨rfl, rfl, ?_⟩
          intro u hu
          simp [hu]
    · exact absurd h (by simp)

/-! ## Claim theorems -/

/-- Claim C5, counterexample: `nextId` is a Go `int`, a wrapping 64-bit
machine integer, so the unrestricted claim fails at the overflow boundary.
The call made at counter value `2^63 - 1` returns `-2^63`, not one past the
prior counter value, and the two calls made from counter `2^63 - 2` return
`[2^63 - 1, -2^63]` — not strictly increasing and not a gapless run. -/
theorem genUserID_overflow_counterexample :
    genSeq (2 ^ 63 - 2) 2 = [2 ^ 63 - 1, -(2 ^ 63)]
    ∧ ¬(genSeq (2 ^ 63 - 2) 2).Pairwise (· < ·)
    ∧ (genUserID (2 ^ 63 - 1)).2 = -(2 ^ 63)
    ∧ (genUserID (2 ^ 63 - 1)).2 ≠ 2 ^ 63 - 1 + 1 := by
  decide

/-- Claim C5, amended: `genUserID` returns a strictly increasing, gapless,
duplicate-free sequence as long as the counter does not overflow its
64-bit `int`.  The lock makes each `nextId++` atomic, so any interleaving
of `n` calls is some serialization of `n` sequential calls; starting from
a counter value `c` with `0 ≤ c` and `c + n ≤ 2^63 - 1` (which covers
every physically realizable run of the program from its zero-initialized
counter) they return exactly `[c+1, c+2, …, c+n]` — `n` distinct values,
strictly increasing, gapless from one past the prior counter value, from 1
when the counter starts at 0 — and no call can fail.  At `2^63 - 1` the
next id silently wraps to `-2^63` (see the counterexample). -/
theorem genUserID_gapless_until_overflow (c : Int) (n : Nat)
    (hc : 0 ≤ c) (hn : c + n ≤ 2 ^ 63 - 1) :
    genSeq c n = (List.range n).map (fun (k : Nat) => c + 1 + (k : Int))
    ∧ (genSeq c n).length = n
    ∧ (genSeq c n).Nodup
    ∧ (genSeq c n).Pairwise (· < ·) := by
  have h := genSeq_eq_of_le n c hc hn
  refine ⟨h, ?_, ?_, ?_⟩ <;> rw [h]
  · simp
  · exact List.Nodup.map (fun a b hab => by omega) (List.nodup_range n)
  · rw [List.pairwise_map]
    exact List.Pairwise.imp (fun hab => by omega) (List.pairwise_lt_range n)

/-- Witness for the amended C5: three calls from the fresh counter. -/
theorem genUserID_gapless_witness :
    (0 : Int) ≤ 0
    ∧ (0 : Int) + (3 : Nat) ≤ 2 ^ 63 - 1
    ∧ genSeq 0 3 = (List.range 3).map (fun (k : Nat) => (0 : Int) + 1 + (k : Int))
    ∧ (genSeq 0 3).Nodup
    ∧ (genSeq 0 3).Pairwise (· < ·) := by
  have h := genUserID_gapless_until_overflow 0 3 (by decide) (by decide)
  exact ⟨by decide, by decide, h.1, h.2.2.1, h.2.2.2⟩

/-- Claim C9: a single `Accept` error terminates the whole server.  The
accept loop runs `log.Panicln(err)` on an error, which panics after logging
and is never recovered, so the process dies (taking the Hub and every live
connection with it): the `continue` after it never runs, and no later
accept result — however many successful ones follow — is ever processed. -/
theorem accept_error_panics_server (cs : List Nat) (e : String) (rest : List AcceptRes) :
    acceptLoop (cs.map AcceptRes.conn ++ AcceptRes.err e :: rest) = (cs, some e) := by
  induction cs with
  | nil => rfl
  | cons c cs ih => simp [acceptLoop, ih]

/-- Claim C8, counterexample: the wire formats claimed in the spec do not
match the code.  The first line a connecting client receives is
`欢迎你的到来：<id>`, not `welcome: <id>`; and the arrival/departure
announcements contain no apostrophe (character 39) at all, while the
claimed `user '<id>' has entered` / `user '<id>' has left` lines quote the
id in apostrophes. -/
theorem wire_formats_counterexample :
    welcomeMsg 1 ≠ "welcome: 1"
    ∧ Char.ofNat 39 ∉ (enterMsg 2).data
    ∧ Char.ofNat 39 ∉ (leftMsg 1).data := by
  decide

/-- Claim C8, amended: the spec's connect/chat/disconnect scenario with the
wire lines the code actually produces.  User 1 connects (its first line is
`欢迎你的到来：1`), user 2 connects (user 1 receives `` user:`2` has enter ``,
user 2 itself does not, its first line being `欢迎你的到来：2`), user 1 sends
`hello` (relayed as `1: hello`), user 1 disconnects (user 2 receives
`` user:`1` has left ``).  Only the chat-relay format `<id>: <text>` agrees
with the claim. -/
theorem scenario_wire_lines :
    ((runSteps sysScen scenActs).hub.boxes 1).history
      = [welcomeMsg 1, enterMsg 2, chatMsg 1 "hello"]
    ∧ ((runSteps sysScen scenActs).hub.boxes 2).history
      = [welcomeMsg 2, chatMsg 1 "hello", leftMsg 1]
    ∧ welcomeMsg 1 = "欢迎你的到来：1"
    ∧ enterMsg 2 = "user:`2` has enter"
    ∧ chatMsg 1 "hello" = "1: hello"
    ∧ leftMsg 1 = "user:`1` has left"
    ∧ (runSteps sysScen scenActs).crashed = false := by
  decide

/-- Claim C1, failing execution: the arriving participant CAN receive the
arrival-announcement broadcast its own connection triggered.  `handleConn`
does submit the arrival Broadcast (step 4) before the Join (step 5), but
the Broadcast goes into the buffered `messageChannel` while the Join is a
rendezvous on the unbuffered `enteringChannel`; once the buffered send has
completed and the worker blocks on the Join, both of the broadcaster's
`select` cases are ready and Go's `select` picks among ready cases
uniformly at random.  In the legal schedule `raceActs` it takes the Join
first, and the subsequent fan-out of the arrival announcement reaches the
arriving user's own outbox — exactly what the claim (and the comment in
the source) says can never happen. -/
theorem self_arrival_delivery :
    enterMsg 1 ∈ ((runSteps sysRace raceActs).hub.boxes 1).history
    ∧ (runSteps sysRace raceActs).crashed = false := by
  decide

/-- Claim C2, counterexample: the Hub does not observe a single worker's
events in submission order when they are of different kinds.  Worker 0
submits the arrival Broadcast (position 1 of its program) strictly before
its Join (position 2), yet in the legal schedule `raceActs` the
broadcaster's log records the Join first — the two travel on different
channels, and `select` imposes no cross-channel order. -/
theorem join_observed_before_prior_broadcast :
    (runSteps sysRace raceActs).hubLog = [HEvent.enter 1, HEvent.message (enterMsg 1)]
    ∧ (prog 1 []).get? 1 = some (WEv.bcast (enterMsg 1))
    ∧ (prog 1 []).get? 2 = some WEv.join
    ∧ (runSteps sysRace raceActs).crashed = false := by
  decide

/-- Claim C3, failing input: a Leave event for a participant that already
left crashes the Hub loop.  From a roster `{1, 2}` the first `Leave(1)` is
processed fine (the roster becomes `[2]` and user 1's channel is closed),
but processing the same `Leave(1)` again reaches
`close(user.MessageChannel)` on an already-closed channel, a runtime panic
(`none`) that kills the broadcaster goroutine and with it the process —
the `delete` is idempotent, the `close` is not. -/
theorem duplicate_leave_panics :
    (hubHandle hubSt3 (HEvent.leave 1)).map HubSt.roster = some [2]
    ∧ (hubHandle hubSt3 (HEvent.leave 1)).map (fun h => (h.boxes 1).closed) = some true
    ∧ (hubHandle hubSt3 (HEvent.leave 1)).bind (fun h => hubHandle h (HEvent.leave 1)) = none :=
  ⟨rfl, rfl, rfl⟩

/-- Claim C4: Broadcast fan-out is complete.  Processing `Broadcast(m)`
from any broadcaster state whose rostered mailboxes are open (which is
every state reachable under the protocol) succeeds, leaves the roster
unchanged, appends `m` to the outbox of every participant currently in the
roster, and leaves every other mailbox — rostered or not — untouched.  For
the roster `{A, B, C}` the message lands exactly in the outboxes of A, B
and C (see the witness on `stABC`). -/
theorem broadcast_fanout_complete (st : HubSt) (m : String)
    (hopen : ∀ u ∈ st.roster, (st.boxes u).closed = false) :
    ∃ st', hubHandle st (HEvent.message m) = some st'
      ∧ st'.roster = st.roster
      ∧ (∀ u ∈ st.roster, (st'.boxes u).history = (st.boxes u).history ++ [m])
      ∧ (∀ u, u ∉ st.roster → st'.boxes u = st.boxes u) := by
  have hany : st.roster.any (fun u => (st.boxes u).closed) = false := by
    cases hcase : st.roster.any (fun u => (st.boxes u).closed) with
    | false => rfl
    | true =>
        obtain ⟨u, hu, hc⟩ := List.any_eq_true.mp hcase
        rw [hopen u hu] at hc
        cases hc
  refine ⟨{ st with boxes := (fun v =>
      if v ∈ st.roster then { st.boxes v with history := (st.boxes v).history ++ [m] }
      else st.boxes v) }, ?_, rfl, ?_, ?_⟩
  · simp [hubHandle, hany]
  · intro u hu; simp [hu]
  · intro u hu; simp [hu]

/-- Witness for C4 at the three-user roster `stABC`. -/
theorem broadcast_fanout_witness :
    (∀ u ∈ stABC.roster, (stABC.boxes u).closed = false)
    ∧ ∃ st', hubHandle stABC (HEvent.message ("hi")) = some st'
        ∧ st'.roster = stABC.roster
        ∧ (∀ u ∈ stABC.roster, (st'.boxes u).history = (stABC.boxes u).history ++ ["hi"])
        ∧ (∀ u, u ∉ stABC.roster → st'.boxes u = stABC.boxes u) :=
  ⟨by decide, broadcast_fanout_complete stABC ("hi") (by decide)⟩

/-- Claim C7: a read error is treated exactly like clean end-of-stream.
The worker's channel operations are identical under `readErr e` and `eof`
(so the Hub and the other connections see exactly the same thing, and the
error value reaches neither), the error is reported in the local log, the
worker still submits Leave followed by the departure Broadcast, and the
deferred `conn.Close()` runs on both paths. -/
theorem read_error_treated_as_eof (id : Nat) (lines : List String) (e : String) :
    (handleConn id lines (Term.readErr e)).events = (handleConn id lines Term.eof).events
    ∧ (handleConn id lines (Term.readErr e)).connClosed = true
    ∧ (handleConn id lines Term.eof).connClosed = true
    ∧ (∃ p, (handleConn id lines (Term.readErr e)).events
          = p ++ [WEv.leave, WEv.bcast (leftMsg id)])
    ∧ ((scanLines lines).2 = false →
        (handleConn id lines (Term.readErr e)).logged = ["读取错误：" ++ e]) := by
  refine ⟨rfl, rfl, rfl, ?_, ?_⟩
  · exact ⟨_, prog_split id (scanLines lines).1⟩
  · intro h
    simp [handleConn, h]

/-- Witness for C7: one short line, then a transport error. -/
theorem read_error_witness :
    (handleConn 7 ["a"] (Term.readErr ("boom"))).events
      = (handleConn 7 ["a"] Term.eof).events
    ∧ (scanLines ["a"]).2 = false
    ∧ (handleConn 7 ["a"] (Term.readErr ("boom"))).logged = ["读取错误：" ++ "boom"] :=
  ⟨(read_error_treated_as_eof 7 ["a"] ("boom")).1, by decide,
    (read_error_treated_as_eof 7 ["a"] ("boom")).2.2.2.2 (by decide)⟩

/-- Claim C10: an inbound line longer than the scanner's maximum token size
(64 KiB with the default buffer) stops the read loop with `ErrTooLong`
instead of delivering the line: only the lines before it are relayed, the
error is logged locally, and the worker proceeds down the Leave path —
Leave, then the departure announcement — even though the peer is still
connected. -/
theorem long_line_terminates_session (id : Nat) (pre : List String) (l : String)
    (post : List String) (t : Term)
    (hpre : ∀ x ∈ pre, byteLen x < maxScanTokenSize)
    (hl : maxScanTokenSize < byteLen l) :
    (handleConn id (pre ++ l :: post) t).events = prog id pre
    ∧ (handleConn id (pre ++ l :: post) t).logged
        = ["读取错误：" ++ "bufio.Scanner: token too long"]
    ∧ l ∉ pre
    ∧ ∃ p, (handleConn id (pre ++ l :: post) t).events
          = p ++ [WEv.leave, WEv.bcast (leftMsg id)] := by
  have hscan := scanLines_stops l (le_of_lt hl) pre post hpre
  have hev : (handleConn id (pre ++ l :: post) t).events = prog id pre := by
    simp [handleConn, hscan]
  refine ⟨hev, ?_, ?_, ?_⟩
  · simp [handleConn, hscan]
  · intro hmem
    have := hpre l hmem
    omega
  · rw [hev]
    exact ⟨_, prog_split id pre⟩

/-- Witness for C10: a 65537-byte line after a short one. -/
theorem long_line_witness :
    maxScanTokenSize < byteLen bigLine
    ∧ (handleConn 1 ["hi", bigLine] Term.eof).events = prog 1 ["hi"] := by
  have hbig : byteLen bigLine = 65537 := by
    simpa [bigLine] using byteLen_mk_replicate 65537 'a'
  have hlt : maxScanTokenSize < byteLen bigLine := by
    rw [hbig]; decide
  exact ⟨hlt,
    (long_line_terminates_session 1 ["hi"] bigLine [] Term.eof (by decide) hlt).1⟩

/-- Claim C2, amended: events a single worker submits on the SAME channel
are observed by the Hub in submission order, and broadcasts reach every
recipient in that order; order is NOT guaranteed across different kinds
(see the counterexample `join_observed_before_prior_broadcast`).  Two
Broadcasts submitted in sequence enter the shared `messageChannel` in
order; the FIFO invariant shows the broadcaster dequeues broadcasts in
exactly submission order; `hubMsg_fanout` shows each processing step
appends the oldest message to every rostered mailbox; and histories are
append-only, so any recipient rostered at both fan-outs holds the two
messages in submission order. -/
theorem same_worker_broadcasts_in_order (s : Sys) (tr : List Act) (hinv : fifoInv s) :
    fifoInv (runSteps s tr)
    ∧ (∀ u, List.IsPrefix ((s.hub.boxes u).history) (((runSteps s tr).hub.boxes u).history))
    ∧ (∀ m rest s', s.msgQ = m :: rest → step s Act.hubMsg = some s' →
        s'.crashed = true
        ∨ (s'.hubLog = s.hubLog ++ [HEvent.message m] ∧ s'.msgQ = rest
           ∧ ∀ u ∈ s.hub.roster, (s'.hub.boxes u).history = (s.hub.boxes u).history ++ [m])) :=
  ⟨runSteps_fifo s tr hinv, fun u => runSteps_history_mono s tr u,
   fun m rest s' hq h => hubMsg_fanout s m rest s' hq h⟩

/-- Witness for the amended C2 on a concrete mid-scenario state. -/
theorem same_worker_broadcasts_witness :
    fifoInv sysMid
    ∧ fifoInv (runSteps sysMid [Act.hubMsg, Act.hubJoin 0])
    ∧ List.IsPrefix ((sysMid.hub.boxes 1).history)
        (((runSteps sysMid [Act.hubMsg, Act.hubJoin 0]).hub.boxes 1).history) :=
  ⟨by unfold fifoInv; decide,
   (same_worker_broadcasts_in_order sysMid [Act.hubMsg, Act.hubJoin 0]
     (by unfold fifoInv; decide)).1,
   (same_worker_broadcasts_in_order sysMid [Act.hubMsg, Act.hubJoin 0]
     (by unfold fifoInv; decide)).2.1 1⟩

/-- Claim C6: (1) on every path — clean end-of-stream or error — the worker
ends by submitting Leave and then the departure Broadcast, so every joined
participant whose connection terminates has a Leave submitted; (2) whenever
that Leave is pending the broadcaster can process it, and processing it
closes the participant's outbox; (3) nothing but Leave processing ever
closes an outbox; (4) once the outbox is closed with `n` messages
buffered, the Mailbox Writer drains them in `n` receives and its
`for … range` loop terminates — no orphaned writer goroutines. -/
theorem leave_closes_outbox_writer_terminates :
    (∀ id lines t, ∃ p, (handleConn id lines t).events
        = p ++ [WEv.leave, WEv.bcast (leftMsg id)])
    ∧ (∀ s i w rest, s.crashed = false → s.workers.get? i = some w →
        w.todo = WEv.leave :: rest → (s.hub.boxes w.uid).closed = false →
        ∃ s', step s (Act.hubLeave i) = some s'
          ∧ (s'.hub.boxes w.uid).closed = true ∧ s'.crashed = false)
    ∧ (∀ s a s' u, step s a = some s' → (s.hub.boxes u).closed = false →
        (s'.hub.boxes u).closed = true →
        ∃ i w, a = Act.hubLeave i ∧ s.workers.get? i = some w ∧ w.uid = u)
    ∧ (∀ u n s, s.crashed = false → (s.hub.boxes u).closed = true →
        (s.hub.boxes u).drained + n = (s.hub.boxes u).history.length →
        ((runSteps s (List.replicate n (Act.drain u))).hub.boxes u).closed = true
        ∧ ((runSteps s (List.replicate n (Act.drain u))).hub.boxes u).history
            = (s.hub.boxes u).history
        ∧ ((runSteps s (List.replicate n (Act.drain u))).hub.boxes u).drained
            = (s.hub.boxes u).history.length) := by
  refine ⟨?_, ?_, ?_, ?_⟩
  · intro id lines t
    exact ⟨_, prog_split id (scanLines lines).1⟩
  · exact fun s i w rest hc hw ht hb => hubLeave_enabled s i w rest hc hw ht hb
  · intro s a s' u h h0 h1
    rcases step_closed_cases s a s' h u with hsame | hex
    · simp [h0, h1] at hsame
    · exact hex
  · exact fun u n s hc hcl hd => drain_runs_out u n s hc hcl hd

/-- Witness for C6 at concrete states. -/
theorem leave_closes_outbox_witness :
    (∃ p, (handleConn 1 [] Term.eof).events = p ++ [WEv.leave, WEv.bcast (leftMsg 1)])
    ∧ (∃ s', step sysLeaveW (Act.hubLeave 0) = some s'
        ∧ (s'.hub.boxes 1).closed = true ∧ s'.crashed = false)
    ∧ (∃ i w, Act.hubLeave 0 = Act.hubLeave i
        ∧ sysLeaveW.workers.get? i = some w ∧ w.uid = 1)
    ∧ (((runSteps sysDrainW (List.replicate 2 (Act.drain 1))).hub.boxes 1).closed = true
       ∧ ((runSteps sysDrainW (List.replicate 2 (Act.drain 1))).hub.boxes 1).history
           = (sysDrainW.hub.boxes 1).history
       ∧ ((runSteps sysDrainW (List.replicate 2 (Act.drain 1))).hub.boxes 1).drained
           = (sysDrainW.hub.boxes 1).history.length) := by
  refine ⟨leave_closes_outbox_writer_terminates.1 1 [] Term.eof, ?_, ?_, ?_⟩
  · exact leave_closes_outbox_writer_terminates.2.1 sysLeaveW 0
      { uid := 1, todo := [WEv.leave, WEv.bcast (leftMsg 1)] } [WEv.bcast (leftMsg 1)]
      rfl rfl rfl rfl
  · exact leave_closes_outbox_writer_terminates.2.2.1 sysLeaveW (Act.hubLeave 0)
      sysLeaveW' 1 rfl rfl rfl
  · exact leave_closes_outbox_writer_terminates.2.2.2 1 2 sysDrainW rfl rfl rfl

end Chatroom
